import Mathlib

/-
Verification of the Vietnamese grapheme-to-phoneme codec
(`VietnameseTextProcessor` in `vall_e/emb/G2P/ViG2Padvanced.py`).

Modelling conventions:
* A Python `str` is a sequence of Unicode code points; it is modelled as
  `List Char` (`Str` below).  The source file is NFC-encoded, so every
  Vietnamese vowel with diacritics in the tables is a single code point.
* Python `str.lower()` is modelled code-point-wise by `pyLower` below, with a
  table covering ASCII and every Vietnamese letter occurring in the codec's
  inventories; other code points are left unchanged.
* Python `str.split()` (split on whitespace runs, dropping empty fields) is
  modelled by `pySplit`, with whitespace restricted to the ASCII whitespace
  characters.
* The anchored regular expression `^(initial)?(medial)(final)?$` built by
  `is_vietnamese_syllable` from alternations of literal strings is modelled
  extensionally: the backtracking engine accepts exactly when some choice of
  an optional initial, a medial and an optional final concatenates to the
  whole (lower-cased) string.  (Python's `$` would additionally match before
  one trailing newline; this is modelled as strict end-of-string.)
-/

namespace ViG2P

/-- A Python string as a list of Unicode code points. -/
abbrev Str := List Char

/-- Code-point-wise model of Python `str.lower` restricted to ASCII letters and
the Vietnamamese letters of the codec's inventories. -/
def LOWER_MAP : List (Char × Char) :=
  [('A', 'a'), ('B', 'b'), ('C', 'c'), ('D', 'd'), ('E', 'e'), ('F', 'f'),
   ('G', 'g'), ('H', 'h'), ('I', 'i'), ('J', 'j'), ('K', 'k'), ('L', 'l'),
   ('M', 'm'), ('N', 'n'), ('O', 'o'), ('P', 'p'), ('Q', 'q'), ('R', 'r'),
   ('S', 's'), ('T', 't'), ('U', 'u'), ('V', 'v'), ('W', 'w'), ('X', 'x'),
   ('Y', 'y'), ('Z', 'z'), ('À', 'à'), ('Á', 'á'), ('Â', 'â'), ('Ã', 'ã'),
   ('È', 'è'), ('É', 'é'), ('Ê', 'ê'), ('Ì', 'ì'), ('Í', 'í'), ('Ò', 'ò'),
   ('Ó', 'ó'), ('Ô', 'ô'), ('Õ', 'õ'), ('Ù', 'ù'), ('Ú', 'ú'), ('Ý', 'ý'),
   ('Ă', 'ă'), ('Đ', 'đ'), ('Ĩ', 'ĩ'), ('Ũ', 'ũ'), ('Ơ', 'ơ'), ('Ư', 'ư'),
   ('Ạ', 'ạ'), ('Ả', 'ả'), ('Ấ', 'ấ'), ('Ầ', 'ầ'), ('Ẩ', 'ẩ'), ('Ẫ', 'ẫ'),
   ('Ậ', 'ậ'), ('Ắ', 'ắ'), ('Ằ', 'ằ'), ('Ẳ', 'ẳ'), ('Ẵ', 'ẵ'), ('Ặ', 'ặ'),
   ('Ẹ', 'ẹ'), ('Ẻ', 'ẻ'), ('Ẽ', 'ẽ'), ('Ế', 'ế'), ('Ề', 'ề'), ('Ể', 'ể'),
   ('Ễ', 'ễ'), ('Ệ', 'ệ'), ('Ỉ', 'ỉ'), ('Ị', 'ị'), ('Ọ', 'ọ'), ('Ỏ', 'ỏ'),
   ('Ố', 'ố'), ('Ồ', 'ồ'), ('Ổ', 'ổ'), ('Ỗ', 'ỗ'), ('Ộ', 'ộ'), ('Ớ', 'ớ'),
   ('Ờ', 'ờ'), ('Ở', 'ở'), ('Ỡ', 'ỡ'), ('Ợ', 'ợ'), ('Ụ', 'ụ'), ('Ủ', 'ủ'),
   ('Ứ', 'ứ'), ('Ừ', 'ừ'), ('Ử', 'ử'), ('Ữ', 'ữ'), ('Ự', 'ự'), ('Ỳ', 'ỳ'),
   ('Ỵ', 'ỵ'), ('Ỷ', 'ỷ'), ('Ỹ', 'ỹ')]

/-- Lower-case one code point (model of Python lower, see `LOWER_MAP`). -/
def pyLowerChar (c : Char) : Char :=
  match LOWER_MAP.find? (fun p => p.1 == c) with
  | some p => p.2
  | none => c

/-- Model of Python `str.lower()`. -/
def pyLower (s : Str) : Str := s.map pyLowerChar

/-- `CHAR_LISTS[INITIAL]` (ViG2Padvanced.py lines 13-17). -/
def CHAR_LISTS_INITIAL : List Str :=
  ["b", "ch", "d", "đ", "g", "gh", "gi", "h", "k", "kh",
   "l", "m", "n", "nh", "ng", "ngh", "ph", "qu", "r", "s",
   "t", "th", "tr", "v", "x"].map String.toList

/-- `CHAR_LISTS[MEDIAL]` (ViG2Padvanced.py lines 18-32). -/
def CHAR_LISTS_MEDIAL : List Str :=
  ["a", "à", "á", "ả", "ã", "ạ",
   "ă", "ằ", "ắ", "ẳ", "ẵ", "ặ",
   "â", "ầ", "ấ", "ẩ", "ẫ", "ậ",
   "e", "è", "é", "ẻ", "ẽ", "ẹ",
   "ê", "ề", "ế", "ể", "ễ", "ệ",
   "i", "ì", "í", "ỉ", "ĩ", "ị",
   "o", "ò", "ó", "ỏ", "õ", "ọ",
   "ô", "ồ", "ố", "ổ", "ỗ", "ộ",
   "ơ", "ờ", "ớ", "ở", "ỡ", "ợ",
   "u", "ù", "ú", "ủ", "ũ", "ụ",
   "ư", "ừ", "ứ", "ử", "ữ", "ự",
   "y", "ỳ", "ý", "ỷ", "ỹ", "ỵ",
   "ia", "ưa", "ua"].map String.toList

/-- `CHAR_LISTS[FINAL]` (ViG2Padvanced.py lines 33-35). -/
def CHAR_LISTS_FINAL : List Str :=
  ["c", "ch", "m", "n", "ng", "nh", "p", "t"].map String.toList

/-- `VOWEL_TO_BASE` (ViG2Padvanced.py lines 49-62): precomposed vowel with tone
mark to its base form, one code point to one code point. -/
def VOWEL_TO_BASE : List (Char × Char) :=
  [('à', 'a'), ('á', 'a'), ('ả', 'a'), ('ã', 'a'), ('ạ', 'a'),
   ('ằ', 'ă'), ('ắ', 'ă'), ('ẳ', 'ă'), ('ẵ', 'ă'), ('ặ', 'ă'),
   ('ầ', 'â'), ('ấ', 'â'), ('ẩ', 'â'), ('ẫ', 'â'), ('ậ', 'â'),
   ('è', 'e'), ('é', 'e'), ('ẻ', 'e'), ('ẽ', 'e'), ('ẹ', 'e'),
   ('ề', 'ê'), ('ế', 'ê'), ('ể', 'ê'), ('ễ', 'ê'), ('ệ', 'ê'),
   ('ì', 'i'), ('í', 'i'), ('ỉ', 'i'), ('ĩ', 'i'), ('ị', 'i'),
   ('ò', 'o'), ('ó', 'o'), ('ỏ', 'o'), ('õ', 'o'), ('ọ', 'o'),
   ('ồ', 'ô'), ('ố', 'ô'), ('ổ', 'ô'), ('ỗ', 'ô'), ('ộ', 'ô'),
   ('ờ', 'ơ'), ('ớ', 'ơ'), ('ở', 'ơ'), ('ỡ', 'ơ'), ('ợ', 'ơ'),
   ('ù', 'u'), ('ú', 'u'), ('ủ', 'u'), ('ũ', 'u'), ('ụ', 'u'),
   ('ừ', 'ư'), ('ứ', 'ư'), ('ử', 'ư'), ('ữ', 'ư'), ('ự', 'ư'),
   ('ỳ', 'y'), ('ý', 'y'), ('ỷ', 'y'), ('ỹ', 'y'), ('ỵ', 'y')]

/-- `normalize_char` (lines 107-117): `VOWEL_TO_BASE.get(char, char)`.  The
function is only ever applied to single code points, so it is `Char → Char`. -/
def normalize_char (char : Char) : Char :=
  match VOWEL_TO_BASE.find? (fun p => p.1 == char) with
  | some p => p.2
  | none => char

/-- `get_tone` (lines 91-105).  For each code point `char` of the syllable the
source computes `normalized = normalize_char(char)` and, when they differ,
returns the Python slice `char[len(normalized):]`; `char` is a single code
point and `normalized` a single code point, so the slice drops
`len(normalized) = 1` characters from the one-character string `[char]`. -/
def get_tone : Str → Str
  | [] => []
  | char :: rest =>
    if normalize_char char ≠ char then
      List.drop ([normalize_char char] : Str).length [char]
    else get_tone rest

/-- Python `s.startswith(pre)`. -/
def startsWith (s pre : Str) : Bool := s.take pre.length == pre

/-- Python `s.endswith(suf)` (false when `suf` is longer than `s`). -/
def endsWith (s suf : Str) : Bool := s.drop (s.length - suf.length) == suf

/-- `sorted(CHAR_LISTS[INITIAL], key=len, reverse=True)` (line 133): a stable
length-descending sort of `CHAR_LISTS_INITIAL`, written out literally.  Only
the length ordering is observable through `find?` with a prefix test, because
two distinct strings of the same length cannot both be prefixes of one
string. -/
def SORTED_INITIALS : List Str :=
  ["ngh",
   "ch", "gh", "gi", "kh", "nh", "ng", "ph", "qu", "th", "tr",
   "b", "d", "đ", "g", "h", "k", "l", "m", "n", "r", "s", "t", "v",
   "x"].map String.toList

/-- `sorted(CHAR_LISTS[FINAL], key=len, reverse=True)` (line 141), written out
literally (same remark as for `SORTED_INITIALS`). -/
def SORTED_FINALS : List Str :=
  ["ch", "ng", "nh", "c", "m", "n", "p", "t"].map String.toList

/-- First loop of `split_syllable_char` (lines 132-137): strip the longest
initial-consonant prefix, if any. -/
def stripInitial (s : Str) : Option Str × Str :=
  match SORTED_INITIALS.find? (fun cons => startsWith s cons) with
  | some cons => (some cons, s.drop cons.length)
  | none => (none, s)

/-- Second loop of `split_syllable_char` (lines 140-145): strip the longest
final-consonant suffix, if any (`syllable[:-len(cons)]`). -/
def stripFinal (s : Str) : Option Str × Str :=
  match SORTED_FINALS.find? (fun cons => endsWith s cons) with
  | some cons => (some cons, s.take (s.length - cons.length))
  | none => (none, s)

/-- `split_syllable_char` (lines 119-150): lower-case, strip the initial, strip
the final; the remainder is the medial.  Returns `(initial, medial, final)`. -/
def split_syllable_char (syllable : Str) : Option Str × Str × Option Str :=
  ((stripInitial (pyLower syllable)).1,
   (stripFinal (stripInitial (pyLower syllable)).2).2,
   (stripFinal (stripInitial (pyLower syllable)).2).1)

/-- Python truthiness of an optional-string component: `if initial: result +=
initial` contributes the string when it is neither `None` nor empty, which is
extensionally the same as appending `getD []`. -/
def optPart : Option Str → Str
  | some s => s
  | none => []

/-- Membership test of `_find_main_vowel_index` (line 182):
`char.lower() in VOWEL_TO_BASE or char.lower() in CHAR_LISTS[MEDIAL]`
(dict-key membership, resp. list membership of the one-character string). -/
def isMainVowel (char : Char) : Bool :=
  VOWEL_TO_BASE.any (fun p => p.1 == pyLowerChar char) ||
    CHAR_LISTS_MEDIAL.any (fun m => m == [pyLowerChar char])

/-- `_find_main_vowel_index` (lines 179-184).  The Python function returns the
first index whose character passes `isMainVowel`, and `-1` when there is none;
`-1` is modelled as `none`. -/
def _find_main_vowel_index (syllable : Str) : Option Nat :=
  syllable.findIdx? isMainVowel

/-- `_apply_tone` (lines 186-189): `base + tone if base else vowel`; `base` is
the single code point `normalize_char vowel` and hence always truthy. -/
def _apply_tone (vowel : Char) (tone : Str) : Str :=
  [normalize_char vowel] ++ tone

/-- `join_syllable_char` (lines 152-177): concatenate the truthy components,
then, when a tone is given, replace the character at the main-vowel index by
`_apply_tone` of it (no change when no main vowel is found). -/
def join_syllable_char (initial : Option Str) (medial : Str)
    (final : Option Str) (tone : Str) : Str :=
  let result := optPart initial ++ medial ++ optPart final
  if tone ≠ [] then
    match _find_main_vowel_index result with
    | some idx =>
      match result.get? idx with
      | some c => result.take idx ++ _apply_tone c tone ++ result.drop (idx + 1)
      | none => result
    | none => result
  else result

/-- Alternatives of the optional initial group of the syllable regex. -/
def OPT_INITIALS : List Str := [] :: CHAR_LISTS_INITIAL

/-- Alternatives of the optional final group of the syllable regex. -/
def OPT_FINALS : List Str := [] :: CHAR_LISTS_FINAL

/-- Extensional model of the anchored backtracking regex
`^(?:initial)?(?:medial)(?:final)?$` of `is_vietnamese_syllable`
(lines 85-87): the engine accepts exactly when some optional initial, some
medial and some optional final concatenate to the whole string. -/
def matchesPattern (t : Str) : Bool :=
  OPT_INITIALS.any fun i =>
    startsWith t i &&
      (CHAR_LISTS_MEDIAL.any fun m =>
        startsWith (t.drop i.length) m &&
          (OPT_FINALS.any fun f => (t.drop i.length).drop m.length == f))

/-- `is_vietnamese_syllable` (lines 71-89): empty input is rejected, otherwise
the lower-cased input is matched against the syllable pattern. -/
def is_vietnamese_syllable (text : Str) : Bool :=
  if text.isEmpty then false else matchesPattern (pyLower text)

/-- `_convert_initial_to_ipa`'s table (lines 227-233). -/
def INITIAL_IPA : List (Str × Str) :=
  ([("b", "b"), ("ch", "c"), ("d", "z"), ("đ", "d"), ("g", "ɣ"),
    ("gh", "ɣ"), ("gi", "z"), ("h", "h"), ("k", "k"), ("kh", "x"),
    ("l", "l"), ("m", "m"), ("n", "n"), ("nh", "ɲ"), ("ng", "ŋ"),
    ("ngh", "ŋ"), ("ph", "f"), ("qu", "kw"), ("r", "ʐ"), ("s", "s"),
    ("t", "t"), ("th", "tʰ"), ("tr", "ʈ"), ("v", "v"), ("x", "s")]).map
    (fun p => (p.1.toList, p.2.toList))

/-- `_convert_medial_to_ipa`'s table (lines 241-249). -/
def MEDIAL_IPA : List (Str × Str) :=
  ([("a", "a"), ("ă", "æ"), ("â", "ə"),
    ("e", "ɛ"), ("ê", "e"),
    ("i", "i"),
    ("o", "ɔ"), ("ô", "o"), ("ơ", "əː"),
    ("u", "u"), ("ư", "ɯ"),
    ("y", "i"),
    ("ia", "iə"), ("ưa", "ɯə"), ("ua", "uə")]).map
    (fun p => (p.1.toList, p.2.toList))

/-- `_convert_final_to_ipa`'s table (lines 254-257). -/
def FINAL_IPA : List (Str × Str) :=
  ([("c", "k"), ("ch", "c"), ("m", "m"), ("n", "n"),
    ("ng", "ŋ"), ("nh", "ɲ"), ("p", "p"), ("t", "t")]).map
    (fun p => (p.1.toList, p.2.toList))

/-- `_convert_tone_to_ipa`'s table (lines 262-269). -/
def TONE_IPA : List (Str × Str) :=
  ([("", "1"), ("\u0300", "2"), ("\u0301", "3"),
    ("\u0309", "4"), ("\u0303", "5"), ("\u0323", "6")]).map
    (fun p => (p.1.toList, p.2.toList))

/-- Python `dict.get(k, d)` over an association list. -/
def lookupD (m : List (Str × Str)) (k d : Str) : Str :=
  match m.find? (fun p => p.1 == k) with
  | some p => p.2
  | none => d

/-- `_convert_initial_to_ipa` (lines 225-234). -/
def _convert_initial_to_ipa (initial : Str) : Str :=
  lookupD INITIAL_IPA initial initial

/-- `_convert_medial_to_ipa` (lines 236-250): strips tone marks code-point-wise
first, then looks up with identity fallback. -/
def _convert_medial_to_ipa (medial : Str) : Str :=
  lookupD MEDIAL_IPA (medial.map normalize_char) (medial.map normalize_char)

/-- `_convert_final_to_ipa` (lines 252-258). -/
def _convert_final_to_ipa (final : Str) : Str :=
  lookupD FINAL_IPA final final

/-- `_convert_tone_to_ipa` (lines 260-270): empty-string fallback. -/
def _convert_tone_to_ipa (tone : Str) : Str :=
  lookupD TONE_IPA tone []

/-- Whitespace for Python `str.split()` (modelled on the ASCII whitespace
characters). -/
def isPySpace (c : Char) : Bool :=
  c == ' ' || c == '\t' || c == '\n' || c == '\r' || c == '\x0b' || c == '\x0c'

/-- One step of the whitespace splitter: a whitespace character opens a new
(possibly empty) field, any other character extends the current field. -/
def pySplitStep (c : Char) (ws : List Str) : List Str :=
  if isPySpace c then [] :: ws
  else
    match ws with
    | [] => [[c]]
    | w :: t => (c :: w) :: t

/-- Fields of the input, empty fields between adjacent separators included. -/
def pySplitRaw (s : Str) : List Str := s.foldr pySplitStep []

/-- Model of Python `str.split()`: whitespace-delimited fields, empty fields
dropped. -/
def pySplit (s : Str) : List Str :=
  (pySplitRaw s).filter (fun w => !w.isEmpty)

/-- Model of Python `' '.join(result)`. -/
def joinSpace : List Str → Str
  | [] => []
  | [w] => w
  | w :: rest => w ++ ' ' :: joinSpace rest

/-- Per-word body of the loop of `viet_g2p` (lines 204-221): a valid syllable
is split, its tone extracted, and the IPA pieces of its truthy components are
concatenated, the tone digit appended only when the tone is truthy; any other
word passes through unchanged. -/
def processWord (word : Str) : Str :=
  if is_vietnamese_syllable word then
    (match (split_syllable_char word).1 with
      | some i => if i.isEmpty then [] else _convert_initial_to_ipa i
      | none => []) ++
    _convert_medial_to_ipa (split_syllable_char word).2.1 ++
    (match (split_syllable_char word).2.2 with
      | some f => if f.isEmpty then [] else _convert_final_to_ipa f
      | none => []) ++
    (if get_tone word ≠ [] then _convert_tone_to_ipa (get_tone word) else [])
  else word

/-- `viet_g2p` (lines 191-223): split the text on whitespace, process each
word, join the results with single spaces. -/
def viet_g2p (text : Str) : Str :=
  joinSpace ((pySplit text).map processWord)


/-! ### Helper lemmas -/

/-- Every base form in `VOWEL_TO_BASE` is itself unmapped by the table. -/
theorem vowel_to_base_snd_fixed :
    VOWEL_TO_BASE.all (fun p => normalize_char p.2 == p.2) = true := by decide

/-- The tone slice of `get_tone` is empty for every input: `char` is a single
code point, so `char[len(normalized):]` drops its only code point. -/
theorem get_tone_eq_nil (s : Str) : get_tone s = [] := by
  induction s with
  | nil => rfl
  | cons c rest ih =>
    rw [get_tone]
    split
    · rfl
    · exact ih


/-- A take-prefix re-attached to the corresponding drop restores the list. -/
theorem append_drop_of_take_eq {s c : Str} {n : Nat} (h : s.take n = c) :
    c ++ s.drop n = s := by
  rw [← h, List.take_append_drop]

/-- A drop-suffix re-attached to the corresponding take restores the list. -/
theorem take_append_of_drop_eq {s c : Str} {n : Nat} (h : s.drop n = c) :
    s.take n ++ c = s := by
  rw [← h, List.take_append_drop]

/-- Re-attaching the stripped initial-consonant prefix restores the input. -/
theorem stripInitial_append (s : Str) :
    optPart (stripInitial s).1 ++ (stripInitial s).2 = s := by
  cases h : SORTED_INITIALS.find? (fun cons => startsWith s cons) with
  | none => simp [stripInitial, h, optPart]
  | some c =>
    have hp : s.take c.length = c := by
      have hq := List.find?_some h
      simpa [startsWith] using hq
    simp only [stripInitial, h, optPart]
    exact append_drop_of_take_eq hp

/-- Re-attaching the stripped final-consonant suffix restores the input. -/
theorem stripFinal_append (s : Str) :
    (stripFinal s).2 ++ optPart (stripFinal s).1 = s := by
  cases h : SORTED_FINALS.find? (fun cons => endsWith s cons) with
  | none => simp [stripFinal, h, optPart]
  | some c =>
    have hp : s.drop (s.length - c.length) = c := by
      have hq := List.find?_some h
      simpa [endsWith] using hq
    simp only [stripFinal, h, optPart]
    exact take_append_of_drop_eq hp

/-- Segmentation is a partition of the lower-cased input. -/
theorem split_partition (s : Str) :
    optPart (split_syllable_char s).1 ++ (split_syllable_char s).2.1 ++
      optPart (split_syllable_char s).2.2 = pyLower s := by
  simp only [split_syllable_char]
  rw [List.append_assoc, stripFinal_append, stripInitial_append]

/-- With an empty (falsy) tone, `join_syllable_char` is plain concatenation. -/
theorem join_empty_tone (initial : Option Str) (medial : Str)
    (final : Option Str) :
    join_syllable_char initial medial final [] =
      optPart initial ++ medial ++ optPart final := rfl


/-! ### Claim theorems -/

/-- C1: the claim says `get_tone "tiếng"` returns the combining acute accent
U+0301.  The code disagrees: the slice `char[len(normalized):]` of the single
code point U+1EBF past its single-code-point base form U+00EA is empty, so
`get_tone "tiếng"` is the empty string, contradicting the function's own
docstring ("Returns: Tone mark or empty string if no tone"). -/
theorem claim_C1_get_tone_tieng :
    get_tone ("tiếng".toList) = [] ∧ get_tone ("tiếng".toList) ≠ ['\u0301'] := by
  decide

/-- C2: the claim says `to_phonetic "tiếng" = "tiəŋ3"` with
`is_syllable "tiếng"` true.  The code disagrees: the medial `"iế"` of
`"tiếng"` is not in the medial inventory, so `is_vietnamese_syllable` rejects
the word and `viet_g2p` passes it through unchanged. -/
theorem claim_C2_viet_g2p_tieng :
    is_vietnamese_syllable ("tiếng".toList) = false ∧
      viet_g2p ("tiếng".toList) = "tiếng".toList ∧
      viet_g2p ("tiếng".toList) ≠ "tiəŋ3".toList := by
  decide

/-- C3: round-trip invariant.  For every token accepted by
`is_vietnamese_syllable`, joining the three components of
`split_syllable_char` with the tone returned by `get_tone` re-applied
reproduces the lower-cased input.  (The tone is always the empty string, so
`join_syllable_char` reduces to the concatenation of the partition.) -/
theorem claim_C3_roundtrip (s : Str) (_h : is_vietnamese_syllable s = true) :
    join_syllable_char (split_syllable_char s).1 (split_syllable_char s).2.1
      (split_syllable_char s).2.2 (get_tone s) = pyLower s := by
  rw [get_tone_eq_nil, join_empty_tone]
  exact split_partition s

/-- Witness for C3 at the accepted syllable `"ta"`. -/
theorem claim_C3_roundtrip_witness :
    is_vietnamese_syllable ("ta".toList) = true ∧
      join_syllable_char (split_syllable_char ("ta".toList)).1
        (split_syllable_char ("ta".toList)).2.1
        (split_syllable_char ("ta".toList)).2.2 (get_tone ("ta".toList)) =
        pyLower ("ta".toList) :=
  ⟨by decide, claim_C3_roundtrip ("ta".toList) (by decide)⟩

/-- C4 counterexample: `"gi"` is accepted by `is_vietnamese_syllable` (the
regex parses it as initial `g` + medial `i`), yet `split_syllable_char`
strips the longer initial `"gi"` greedily and returns an empty medial,
refuting the claim that the medial is never empty for a valid syllable. -/
theorem claim_C4_counterexample :
    is_vietnamese_syllable ("gi".toList) = true ∧
      (split_syllable_char ("gi".toList)).2.1 = [] := by
  decide

/-- C5: the claim says `join("t", "iê", "ng", U+0301) = "tiếng"`.  The code
disagrees on two counts: `_find_main_vowel_index` returns the index of the
first vowel-like character (the `i` at index 1, not the `ê`), and
`_apply_tone` concatenates the combining mark after the base code point
instead of producing a precomposed character.  The result is the
six-code-point string `t i U+0301 ê n g`, not the five-code-point NFC
`"tiếng"`. -/
theorem claim_C5_join_tieng :
    join_syllable_char (some ("t".toList)) ("iê".toList) (some ("ng".toList))
        ['\u0301'] = ['t', 'i', '\u0301', 'ê', 'n', 'g'] ∧
      (['t', 'i', '\u0301', 'ê', 'n', 'g'] : Str) ≠ "tiếng".toList := by
  decide

/-- C6: segmentation is a lossless partition: for every input token the three
pieces of `split_syllable_char`, concatenated in order
initial ++ medial ++ final (an absent piece contributing the empty string),
equal the lower-cased input exactly. -/
theorem claim_C6_partition (s : Str) :
    optPart (split_syllable_char s).1 ++ (split_syllable_char s).2.1 ++
      optPart (split_syllable_char s).2.2 = pyLower s :=
  split_partition s

/-- C9: idempotence of tone stripping: the base-vowel lookup applied twice
agrees with one application, for every code point. -/
theorem claim_C9_normalize_idempotent (c : Char) :
    normalize_char (normalize_char c) = normalize_char c := by
  cases h : VOWEL_TO_BASE.find? (fun p => p.1 == c) with
  | none =>
    have hc : normalize_char c = c := by unfold normalize_char; rw [h]
    rw [hc]
    exact hc
  | some p =>
    have hc : normalize_char c = p.2 := by unfold normalize_char; rw [h]
    have hmem : p ∈ VOWEL_TO_BASE := List.mem_of_find?_eq_some h
    have hall := List.all_eq_true.mp vowel_to_base_snd_fixed p hmem
    rw [hc]
    exact eq_of_beq hall

/-- C10: `get_tone` returns the empty string on every input, because the
computed suffix `char[len(base):]` of a single code point past its
single-code-point base form is always empty; consequently the falsy-tone
guard in `viet_g2p` never fires, so no tone digit is ever appended (the
second conjunct is the tone summand of the per-word phonetic built by
`processWord`). -/
theorem claim_C10_get_tone_empty (s : Str) :
    get_tone s = [] ∧
      (if get_tone s ≠ [] then _convert_tone_to_ipa (get_tone s) else []) =
        ([] : Str) := by
  refine ⟨get_tone_eq_nil s, ?_⟩
  rw [get_tone_eq_nil s]
  simp


/-! ### The degenerate empty-medial tokens (claim C4) -/

/-- Lower-cased tokens that the pattern accepts but whose greedy segmentation
leaves an empty medial: the initial `gi` consumes the only vowel. -/
def DEGENERATE : List Str :=
  ["gi", "gic", "gich", "gim", "gin", "ging", "ginh", "gip", "git"].map
    String.toList

/-- All concatenations of an optional initial and an optional final consonant:
every string whose greedy segmentation has an empty medial is of this form. -/
def IFCONCATS : List Str :=
  ([] :: SORTED_INITIALS).flatMap
    (fun i => ([] :: SORTED_FINALS).map (fun f => i ++ f))

set_option maxRecDepth 4096 in
/-- Finite check: among all initial++final concatenations, exactly the
`DEGENERATE` ones match the syllable pattern. -/
theorem ifconcats_degenerate :
    IFCONCATS.all
      (fun t => !matchesPattern t || DEGENERATE.any (fun d => d == t)) =
      true := by
  decide

/-- Finite check: every `DEGENERATE` token segments with an empty medial. -/
theorem degenerate_split :
    DEGENERATE.all
      (fun t => (stripFinal (stripInitial t).2).2 == []) = true := by
  decide

/-- The initial piece (empty when absent) is an optional initial consonant. -/
theorem stripInitial_fst_mem (s : Str) :
    optPart (stripInitial s).1 ∈ ([] :: SORTED_INITIALS) := by
  cases h : SORTED_INITIALS.find? (fun cons => startsWith s cons) with
  | none => simp [stripInitial, h, optPart]
  | some c =>
    simp only [stripInitial, h, optPart]
    exact List.mem_cons_of_mem _ (List.mem_of_find?_eq_some h)

/-- The final piece (empty when absent) is an optional final consonant. -/
theorem stripFinal_fst_mem (s : Str) :
    optPart (stripFinal s).1 ∈ ([] :: SORTED_FINALS) := by
  cases h : SORTED_FINALS.find? (fun cons => endsWith s cons) with
  | none => simp [stripFinal, h, optPart]
  | some c =>
    simp only [stripFinal, h, optPart]
    exact List.mem_cons_of_mem _ (List.mem_of_find?_eq_some h)

/-- Membership in the finite set of initial++final concatenations. -/
theorem mem_IFCONCATS {i f : Str} (hi : i ∈ ([] :: SORTED_INITIALS))
    (hf : f ∈ ([] :: SORTED_FINALS)) : i ++ f ∈ IFCONCATS := by
  unfold IFCONCATS
  rw [List.mem_flatMap]
  exact ⟨i, hi, List.mem_map.mpr ⟨f, hf, rfl⟩⟩

/-- A string whose greedy segmentation has an empty medial is the
concatenation of its optional initial and optional final. -/
theorem medial_empty_mem_ifconcats {s : Str}
    (h : (stripFinal (stripInitial s).2).2 = []) : s ∈ IFCONCATS := by
  have h1 := stripInitial_append s
  have h2 := stripFinal_append (stripInitial s).2
  rw [h, List.nil_append] at h2
  rw [← h2] at h1
  rw [← h1]
  exact mem_IFCONCATS (stripInitial_fst_mem s) (stripFinal_fst_mem _)

/-- An accepted token matches the pattern after lower-casing. -/
theorem accepted_matches {s : Str} (h : is_vietnamese_syllable s = true) :
    matchesPattern (pyLower s) = true := by
  simp only [is_vietnamese_syllable] at h
  split at h
  · exact absurd h (by simp)
  · exact h

/-- C4 amended: for every token accepted by `is_vietnamese_syllable`, the
medial component of `split_syllable_char` is empty exactly when the
lower-cased token is `gi` or `gi` followed by one final consonant
(`gic`, `gich`, `gim`, `gin`, `ging`, `ginh`, `gip`, `git`); for every other
accepted token the medial is non-empty. -/
theorem claim_C4_amended (s : Str) (h : is_vietnamese_syllable s = true) :
    (split_syllable_char s).2.1 = [] ↔ pyLower s ∈ DEGENERATE := by
  simp only [split_syllable_char]
  constructor
  · intro hmed
    have hmem : pyLower s ∈ IFCONCATS := medial_empty_mem_ifconcats hmed
    have hb := List.all_eq_true.mp ifconcats_degenerate _ hmem
    rw [accepted_matches h] at hb
    simp only [Bool.not_true, Bool.false_or] at hb
    obtain ⟨d, hd, hbeq⟩ := List.any_eq_true.mp hb
    rw [eq_of_beq hbeq] at hd
    exact hd
  · intro hmem
    have hb := List.all_eq_true.mp degenerate_split _ hmem
    exact eq_of_beq hb


/-- Witness for C4 amended at `"gi"`: the backward direction gives the empty
medial of the accepted token `"gi"`. -/
theorem claim_C4_amended_witness :
    (split_syllable_char ("gi".toList)).2.1 = [] :=
  (claim_C4_amended ("gi".toList) (by decide)).mpr (by decide)

/-! ### Whitespace facts (claims C7 and C8) -/

/-- No code point of `w` is Python whitespace. -/
def noSpace (w : Str) : Prop := ∀ c ∈ w, isPySpace c = false

theorem noSpace_nil : noSpace [] := by intro c hc; cases hc

theorem noSpace_append {a b : Str} (ha : noSpace a) (hb : noSpace b) :
    noSpace (a ++ b) := by
  intro c hc
  rcases List.mem_append.mp hc with h | h
  · exact ha c h
  · exact hb c h

theorem noSpace_cons {c : Char} {w : Str} (hc : isPySpace c = false)
    (hw : noSpace w) : noSpace (c :: w) := by
  intro x hx
  rcases List.mem_cons.mp hx with rfl | hx2
  · exact hc
  · exact hw x hx2

theorem noSpace_of_all {w : Str}
    (h : w.all (fun c => !isPySpace c) = true) : noSpace w := by
  intro c hc
  simpa using List.all_eq_true.mp h c hc

theorem noSpace_take {w : Str} (h : noSpace w) (n : Nat) :
    noSpace (w.take n) :=
  fun c hc => h c (List.take_subset n w hc)

theorem noSpace_drop {w : Str} (h : noSpace w) (n : Nat) :
    noSpace (w.drop n) :=
  fun c hc => h c (List.drop_subset n w hc)

theorem lower_map_vals_nospace :
    LOWER_MAP.all (fun p => !isPySpace p.2) = true := by decide

theorem vowel_to_base_vals_nospace :
    VOWEL_TO_BASE.all (fun p => !isPySpace p.2) = true := by decide

theorem isPySpace_pyLowerChar {c : Char} (h : isPySpace c = false) :
    isPySpace (pyLowerChar c) = false := by
  cases hf : LOWER_MAP.find? (fun p => p.1 == c) with
  | none => simpa [pyLowerChar, hf] using h
  | some p =>
    have hall := List.all_eq_true.mp lower_map_vals_nospace p
      (List.mem_of_find?_eq_some hf)
    simp only [pyLowerChar, hf]
    simpa using hall

theorem isPySpace_normalize_char {c : Char} (h : isPySpace c = false) :
    isPySpace (normalize_char c) = false := by
  cases hf : VOWEL_TO_BASE.find? (fun p => p.1 == c) with
  | none => simpa [normalize_char, hf] using h
  | some p =>
    have hall := List.all_eq_true.mp vowel_to_base_vals_nospace p
      (List.mem_of_find?_eq_some hf)
    simp only [normalize_char, hf]
    simpa using hall

theorem noSpace_pyLower {w : Str} (h : noSpace w) : noSpace (pyLower w) := by
  intro c hc
  simp only [pyLower, List.mem_map] at hc
  obtain ⟨a, ha, rfl⟩ := hc
  exact isPySpace_pyLowerChar (h a ha)

theorem noSpace_map_normalize {w : Str} (h : noSpace w) :
    noSpace (w.map normalize_char) := by
  intro c hc
  simp only [List.mem_map] at hc
  obtain ⟨a, ha, rfl⟩ := hc
  exact isPySpace_normalize_char (h a ha)

theorem noSpace_stripInitial_snd {s : Str} (h : noSpace s) :
    noSpace (stripInitial s).2 := by
  cases hf : SORTED_INITIALS.find? (fun cons => startsWith s cons) with
  | none => simpa [stripInitial, hf] using h
  | some c =>
    simp only [stripInitial, hf]
    exact noSpace_drop h _

theorem noSpace_stripFinal_snd {s : Str} (h : noSpace s) :
    noSpace (stripFinal s).2 := by
  cases hf : SORTED_FINALS.find? (fun cons => endsWith s cons) with
  | none => simpa [stripFinal, hf] using h
  | some c =>
    simp only [stripFinal, hf]
    exact noSpace_take h _

theorem pySplitRaw_cons (c : Char) (rest : Str) :
    pySplitRaw (c :: rest) = pySplitStep c (pySplitRaw rest) := rfl

/-- Every raw field of the whitespace splitter is whitespace-free. -/
theorem pySplitRaw_noSpace : ∀ (s : Str), ∀ w ∈ pySplitRaw s, noSpace w
  | [], w, hw => by cases hw
  | c :: rest, w, hw => by
    rw [pySplitRaw_cons] at hw
    unfold pySplitStep at hw
    split at hw
    · rcases List.mem_cons.mp hw with rfl | hmem
      · exact noSpace_nil
      · exact pySplitRaw_noSpace rest w hmem
    · rename_i hcp
      have hc : isPySpace c = false := by simpa using hcp
      split at hw
      · rename_i heq
        rcases List.mem_cons.mp hw with rfl | hmem
        · exact noSpace_cons hc noSpace_nil
        · cases hmem
      · rename_i w2 t2 heq
        rcases List.mem_cons.mp hw with rfl | hmem
        · refine noSpace_cons hc ?_
          exact pySplitRaw_noSpace rest w2 (heq ▸ List.mem_cons_self w2 t2)
        · exact pySplitRaw_noSpace rest w (heq ▸ List.mem_cons_of_mem w2 hmem)

/-- Every field of `pySplit` is non-empty and whitespace-free. -/
theorem pySplit_mem {s w : Str} (hw : w ∈ pySplit s) :
    w ≠ [] ∧ noSpace w := by
  unfold pySplit at hw
  have h1 := List.of_mem_filter hw
  have h2 := List.mem_of_mem_filter hw
  constructor
  · intro heq
    subst heq
    simp at h1
  · exact pySplitRaw_noSpace s w h2

/-- Folding the split step of a whitespace-free word over an open field
prepends the word as one complete field. -/
theorem foldr_step_nonspace : ∀ (w : Str) (rest : List Str), noSpace w →
    List.foldr pySplitStep ([] :: rest) w = w :: rest
  | [], _, _ => rfl
  | c :: w2, rest, h => by
    have hc : isPySpace c = false := h c (List.mem_cons_self c w2)
    have h2 : noSpace w2 := fun x hx => h x (List.mem_cons_of_mem c hx)
    rw [List.foldr_cons, foldr_step_nonspace w2 rest h2]
    unfold pySplitStep
    rw [hc]
    simp

/-- Splitting a single whitespace-free word yields that word (or nothing when
it is empty). -/
theorem pySplitRaw_single : ∀ (w : Str), noSpace w →
    pySplitRaw w = if w.isEmpty then [] else [w]
  | [], _ => rfl
  | c :: w2, h => by
    have hc : isPySpace c = false := h c (List.mem_cons_self c w2)
    have h2 : noSpace w2 := fun x hx => h x (List.mem_cons_of_mem c hx)
    rw [pySplitRaw_cons, pySplitRaw_single w2 h2]
    unfold pySplitStep
    rw [hc]
    cases w2 with
    | nil => simp
    | cons x tl => simp

/-- `pySplit` is a left inverse of `joinSpace` on lists of non-empty
whitespace-free fields. -/
theorem pySplit_joinSpace : ∀ (l : List Str),
    (∀ w ∈ l, w ≠ [] ∧ noSpace w) → pySplit (joinSpace l) = l
  | [], _ => rfl
  | [w], h => by
    obtain ⟨hne, hns⟩ := h w (List.mem_cons_self w [])
    show pySplit w = [w]
    unfold pySplit
    rw [pySplitRaw_single w hns]
    cases w with
    | nil => exact absurd rfl hne
    | cons c w2 => simp
  | w :: w2 :: tl, h => by
    obtain ⟨hne, hns⟩ := h w (List.mem_cons_self _ _)
    have ih := pySplit_joinSpace (w2 :: tl)
      (fun x hx => h x (List.mem_cons_of_mem _ hx))
    have hraw : pySplitRaw (joinSpace (w :: w2 :: tl)) =
        w :: pySplitRaw (joinSpace (w2 :: tl)) := by
      show List.foldr pySplitStep [] (w ++ ' ' :: joinSpace (w2 :: tl)) = _
      rw [List.foldr_append]
      exact foldr_step_nonspace w _ hns
    unfold pySplit
    rw [hraw, List.filter_cons]
    have hw : (!w.isEmpty) = true := by
      cases w
      · exact absurd rfl hne
      · rfl
    rw [hw]
    simp only [if_true]
    show w :: pySplit (joinSpace (w2 :: tl)) = _
    rw [ih]


/-! ### Per-word goodness of the phonetic rendering -/

theorem initial_ipa_vals_good :
    INITIAL_IPA.all
      (fun p => !p.2.isEmpty && p.2.all (fun c => !isPySpace c)) = true := by
  decide

theorem medial_ipa_vals_good :
    MEDIAL_IPA.all
      (fun p => !p.2.isEmpty && p.2.all (fun c => !isPySpace c)) = true := by
  decide

theorem final_ipa_vals_good :
    FINAL_IPA.all (fun p => p.2.all (fun c => !isPySpace c)) = true := by
  decide

theorem sorted_initials_good :
    SORTED_INITIALS.all
      (fun i => !i.isEmpty && i.all (fun c => !isPySpace c)) = true := by
  decide

theorem sorted_finals_good :
    SORTED_FINALS.all (fun f => f.all (fun c => !isPySpace c)) = true := by
  decide

/-- A `dict.get` either falls back to the default or返回 a table value. -/
theorem lookupD_cases (m : List (Str × Str)) (k d : Str) :
    lookupD m k d = d ∨ ∃ p ∈ m, lookupD m k d = p.2 := by
  unfold lookupD
  cases h : m.find? (fun p => p.1 == k) with
  | none => exact Or.inl rfl
  | some p => exact Or.inr ⟨p, List.mem_of_find?_eq_some h, rfl⟩

theorem stripInitial_fst_some_mem {s c : Str}
    (h : (stripInitial s).1 = some c) : c ∈ SORTED_INITIALS := by
  cases hf : SORTED_INITIALS.find? (fun cons => startsWith s cons) with
  | none => simp [stripInitial, hf] at h
  | some c2 =>
    simp only [stripInitial, hf, Option.some.injEq] at h
    exact h ▸ List.mem_of_find?_eq_some hf

theorem stripFinal_fst_some_mem {s c : Str}
    (h : (stripFinal s).1 = some c) : c ∈ SORTED_FINALS := by
  cases hf : SORTED_FINALS.find? (fun cons => endsWith s cons) with
  | none => simp [stripFinal, hf] at h
  | some c2 =>
    simp only [stripFinal, hf, Option.some.injEq] at h
    exact h ▸ List.mem_of_find?_eq_some hf

theorem convert_initial_good {i : Str} (hi : i ∈ SORTED_INITIALS) :
    _convert_initial_to_ipa i ≠ [] ∧ noSpace (_convert_initial_to_ipa i) := by
  have hb := List.all_eq_true.mp sorted_initials_good i hi
  obtain ⟨h1, h2⟩ := Bool.and_eq_true_iff.mp hb
  have hid : i ≠ [] := by
    intro heq
    subst heq
    simp at h1
  rcases lookupD_cases INITIAL_IPA i i with h | ⟨p, hp, h⟩
  · unfold _convert_initial_to_ipa
    rw [h]
    exact ⟨hid, noSpace_of_all h2⟩
  · unfold _convert_initial_to_ipa
    rw [h]
    have hv := List.all_eq_true.mp initial_ipa_vals_good p hp
    obtain ⟨hv1, hv2⟩ := Bool.and_eq_true_iff.mp hv
    refine ⟨?_, noSpace_of_all hv2⟩
    intro heq
    rw [heq] at hv1
    simp at hv1

theorem convert_medial_nospace {m : Str} (hm : noSpace m) :
    noSpace (_convert_medial_to_ipa m) := by
  rcases lookupD_cases MEDIAL_IPA (m.map normalize_char) (m.map normalize_char)
    with h | ⟨p, hp, h⟩
  · unfold _convert_medial_to_ipa
    rw [h]
    exact noSpace_map_normalize hm
  · unfold _convert_medial_to_ipa
    rw [h]
    have hv := List.all_eq_true.mp medial_ipa_vals_good p hp
    exact noSpace_of_all (Bool.and_eq_true_iff.mp hv).2

theorem convert_medial_ne_nil {m : Str} (hm : m ≠ []) :
    _convert_medial_to_ipa m ≠ [] := by
  rcases lookupD_cases MEDIAL_IPA (m.map normalize_char) (m.map normalize_char)
    with h | ⟨p, hp, h⟩
  · unfold _convert_medial_to_ipa
    rw [h]
    simpa using hm
  · unfold _convert_medial_to_ipa
    rw [h]
    have hv := List.all_eq_true.mp medial_ipa_vals_good p hp
    obtain ⟨hv1, _⟩ := Bool.and_eq_true_iff.mp hv
    intro heq
    rw [heq] at hv1
    simp at hv1

theorem convert_final_nospace {f : Str} (hf : f ∈ SORTED_FINALS) :
    noSpace (_convert_final_to_ipa f) := by
  have hb := List.all_eq_true.mp sorted_finals_good f hf
  rcases lookupD_cases FINAL_IPA f f with h | ⟨p, hp, h⟩
  · unfold _convert_final_to_ipa
    rw [h]
    exact noSpace_of_all hb
  · unfold _convert_final_to_ipa
    rw [h]
    have hv := List.all_eq_true.mp final_ipa_vals_good p hp
    exact noSpace_of_all hv

/-- None of the optional-final strings alone matches the syllable pattern
(they contain no vowel). -/
theorem finals_not_matched :
    (([] : Str) :: SORTED_FINALS).all (fun f => !matchesPattern f) = true := by
  decide

theorem stripInitial_none_snd {s : Str} (h : (stripInitial s).1 = none) :
    (stripInitial s).2 = s := by
  cases hf : SORTED_INITIALS.find? (fun cons => startsWith s cons) with
  | none => simp [stripInitial, hf]
  | some c => simp [stripInitial, hf] at h

/-- A pattern-matching string with no initial consonant prefix cannot segment
to an empty medial: it would have to be a bare final consonant, which has no
vowel. -/
theorem medial_ne_nil_of_initial_none {s : Str}
    (hmatch : matchesPattern s = true)
    (hini : (stripInitial s).1 = none) :
    (stripFinal (stripInitial s).2).2 ≠ [] := by
  intro hmed
  have hs1 : (stripInitial s).2 = s := stripInitial_none_snd hini
  have h2 := stripFinal_append (stripInitial s).2
  rw [hmed, List.nil_append] at h2
  have hmem : s ∈ ([] : Str) :: SORTED_FINALS := by
    rw [← hs1, ← h2]
    exact stripFinal_fst_mem _
  have hb := List.all_eq_true.mp finals_not_matched s hmem
  rw [hmatch] at hb
  simp at hb

/-- The phonetic rendering of an accepted word is non-empty, and that of any
whitespace-free word stays whitespace-free; unrecognised words pass through. -/
theorem processWord_good {w : Str} (hne : w ≠ []) (hns : noSpace w) :
    processWord w ≠ [] ∧ noSpace (processWord w) := by
  cases hsyl : is_vietnamese_syllable w with
  | false =>
    simp only [processWord, hsyl, Bool.false_eq_true, if_false]
    exact ⟨hne, hns⟩
  | true =>
    have hlow : noSpace (pyLower w) := noSpace_pyLower hns
    have hs1 : noSpace (stripInitial (pyLower w)).2 :=
      noSpace_stripInitial_snd hlow
    have hmedns : noSpace (stripFinal (stripInitial (pyLower w)).2).2 :=
      noSpace_stripFinal_snd hs1
    have hT : (if get_tone w ≠ [] then _convert_tone_to_ipa (get_tone w)
        else []) = ([] : Str) := by
      rw [get_tone_eq_nil]
      simp
    simp only [processWord, hsyl, if_true, split_syllable_char, hT,
      List.append_nil]
    have hmedchunk : noSpace (_convert_medial_to_ipa
        (stripFinal (stripInitial (pyLower w)).2).2) :=
      convert_medial_nospace hmedns
    have hfinchunk : noSpace (match (stripFinal (stripInitial (pyLower w)).2).1
        with
      | some f => if f.isEmpty then [] else _convert_final_to_ipa f
      | none => ([] : Str)) := by
      cases hf : (stripFinal (stripInitial (pyLower w)).2).1 with
      | none => exact noSpace_nil
      | some f =>
        have hfm := stripFinal_fst_some_mem hf
        show noSpace (if f.isEmpty = true then [] else _convert_final_to_ipa f)
        cases hfe : f.isEmpty with
        | true =>
          simp only [if_pos rfl]
          exact noSpace_nil
        | false =>
          simp only [Bool.false_eq_true, if_false]
          exact convert_final_nospace hfm
    cases hi : (stripInitial (pyLower w)).1 with
    | some i =>
      have him := stripInitial_fst_some_mem hi
      obtain ⟨hine, hins⟩ := convert_initial_good him
      have hie : i.isEmpty = false := by
        cases i with
        | nil =>
          have hb := List.all_eq_true.mp sorted_initials_good _ him
          simpa using (Bool.and_eq_true_iff.mp hb).1
        | cons c cs => rfl
      simp only [hie, Bool.false_eq_true, if_false]
      constructor
      · intro heq
        rw [List.append_eq_nil, List.append_eq_nil] at heq
        exact hine heq.1.1
      · exact noSpace_append (noSpace_append hins hmedchunk) hfinchunk
    | none =>
      have hmedne : (stripFinal (stripInitial (pyLower w)).2).2 ≠ [] :=
        medial_ne_nil_of_initial_none (accepted_matches hsyl) hi
      constructor
      · intro heq
        rw [List.append_eq_nil, List.append_eq_nil] at heq
        exact convert_medial_ne_nil hmedne heq.1.2
      · exact noSpace_append (noSpace_append noSpace_nil hmedchunk) hfinchunk


/-- The output token list of `viet_g2p` is the word-wise image of the input
token list. -/
theorem viet_g2p_tokens (text : Str) :
    pySplit (viet_g2p text) = (pySplit text).map processWord := by
  unfold viet_g2p
  refine pySplit_joinSpace _ ?_
  intro w hw
  obtain ⟨x, hx, rfl⟩ := List.mem_map.mp hw
  obtain ⟨h1, h2⟩ := pySplit_mem hx
  exact processWord_good h1 h2

/-- C7: 1:1 token mapping.  For every input text, the whitespace-split of
`viet_g2p text` has exactly as many fields as the whitespace-split of the
input (in particular for inputs whose tokens are separated by single
spaces): every input token produces exactly one non-empty whitespace-free
output token. -/
theorem claim_C7_token_count (text : Str) :
    (pySplit (viet_g2p text)).length = (pySplit text).length := by
  rw [viet_g2p_tokens, List.length_map]

/-- Unrecognised words pass through `processWord` unchanged. -/
theorem processWord_not_syllable {w : Str}
    (h : is_vietnamese_syllable w = false) : processWord w = w := by
  simp [processWord, h]

/-- C8: pass-through for non-syllables.  Every whitespace-delimited token of
the input that `is_vietnamese_syllable` rejects appears unchanged (original
casing included) at the same token position of the output of `viet_g2p`.
The embedding is a total function, so no error is raised on any input. -/
theorem claim_C8_passthrough (text : Str) (i : Nat) (w : Str)
    (hw : (pySplit text)[i]? = some w)
    (hsyl : is_vietnamese_syllable w = false) :
    (pySplit (viet_g2p text))[i]? = some w := by
  rw [viet_g2p_tokens, List.getElem?_map, hw]
  simp [processWord_not_syllable hsyl]

/-- Witness for C8: in `"ba zz"` the token `"zz"` (not a syllable) is passed
through at position 1. -/
theorem claim_C8_passthrough_witness :
    (pySplit (viet_g2p ("ba zz".toList)))[1]? = some ("zz".toList) :=
  claim_C8_passthrough ("ba zz".toList) 1 ("zz".toList) (by decide) (by decide)

end ViG2P
